import Mathlib

/-!
Verification of the blm-parser module (src/blm-parser/parser.js).

The JavaScript source is shallowly embedded: every string operation the
source uses (`String.prototype.split`, `trim`, `toUpperCase`, the quote
stripping regex replace, and the regex based section extraction) is given
an executable Lean counterpart over character lists, and each parsing stage
(`validateFileHandle`, `getHeader`, `getDefinitions`, `getData`, the
`parseBlmFile` coordinator) becomes a total Lean function.  Promise
rejection is modelled with `Except`: in the source each stage promise
settles with its first `resolve`/`reject` and later calls are ignored, so a
stage that calls `reject` and then keeps running corresponds to the
`.error` value of its first rejection.  JavaScript objects with string keys
are modelled as association lists in insertion order where assigning to an
existing key overwrites it in place, which is exactly the observable key
ordering of the source objects.
-/

namespace BlmParser

/-- Character level whitespace test matching what `trim` removes on the
ASCII inputs this format uses (space, tab, newline, carriage return). -/
def isWsChar (c : Char) : Bool :=
  c = ' ' || c = '\t' || c = '\n' || c = '\r'

/-- Strip whitespace from both ends of a character list. -/
def trimChars (l : List Char) : List Char :=
  ((l.dropWhile isWsChar).reverse.dropWhile isWsChar).reverse

/-- Embedding of `String.prototype.trim`. -/
def jsTrim (s : String) : String :=
  String.mk (trimChars s.data)

/-- If `sep` is a leading run of `l`, return the remainder. -/
def dropLead : List Char → List Char → Option (List Char)
  | [], l => some l
  | _ :: _, [] => none
  | c :: cs, d :: ds => if c = d then dropLead cs ds else none

/-- Fuel driven splitter on character lists: splits `l` at every
(leftmost, non overlapping) occurrence of the non empty separator `sep`.
The fuel only serves termination; `l.length + 1` is always enough. -/
def splitChars (sep : List Char) : Nat → List Char → List (List Char)
  | 0, _ => [[]]
  | fuel + 1, l =>
    match dropLead sep l with
    | some rest => [] :: splitChars sep fuel rest
    | none =>
      match l with
      | [] => [[]]
      | c :: r =>
        match splitChars sep fuel r with
        | [] => [[c]]
        | h :: t => (c :: h) :: t

/-- Embedding of `String.prototype.split(sep)` for a string separator.
JavaScript splits into single characters when `sep` is the empty string
(and `"".split("")` is the empty array). -/
def jsSplit (s sep : String) : List String :=
  if sep.data = [] then s.data.map (fun c => String.mk [c])
  else (splitChars sep.data (s.data.length + 1) s.data).map String.mk

/-- Uppercase an ASCII letter, embedding what `toUpperCase` does on the
characters this module compares (the extension check against `"BLM"`). -/
def upChar (c : Char) : Char :=
  if 'a' ≤ c ∧ c ≤ 'z' then Char.ofNat (c.toNat - 32) else c

/-- Embedding of `String.prototype.toUpperCase` on ASCII input. -/
def jsToUpper (s : String) : String :=
  String.mk (s.data.map upChar)

/-- The single quote character, written by code point. -/
def singleQuote : Char := Char.ofNat 39

/-- The double quote character. -/
def doubleQuote : Char := Char.ofNat 34

/-- Embedding of the source regex replace
`.replace(/(^[\x27\x22]|[\x27\x22]$)/g, "")`: remove one leading and one
trailing quote character (either kind). -/
def stripQuote (s : String) : String :=
  let l := s.data
  let l1 :=
    match l with
    | c :: r => if c = singleQuote || c = doubleQuote then r else l
    | [] => []
  match l1.reverse with
  | c :: r => if c = singleQuote || c = doubleQuote then String.mk r.reverse else String.mk l1
  | [] => String.mk l1

/--
Embedding of `validateFileHandle` (parser.js lines 35-58).  The source
resolves its promise with a boolean and never rejects: a non string input
resolves `false` before the later `split` call throws, and a throw after a
promise has settled is ignored.  `none` models a non string argument.
-/
def validateFileHandle : Option String → Bool
  | none => false
  | some s =>
    if s = "" then false
    else
      let parts := jsSplit s "."
      if parts.length ≥ 2 &&
         (parts.dropLast.foldl (fun a c => a ++ c) "") ≠ "" &&
         jsToUpper (parts.getLastD "") = "BLM" then true
      else false

end BlmParser

namespace BlmParser

/-- A JavaScript object holding string properties whose values may be
`undefined` (`none`), in key insertion order. -/
abbrev HeaderObj := List (String × Option String)

/-- Embedding of `obj[k] = v` on a string keyed object: overwrite in place
when the key exists, else append. -/
def objInsertOpt (obj : HeaderObj) (k : String) (v : Option String) : HeaderObj :=
  if obj.any (fun p => p.1 = k) then
    obj.map (fun p => if p.1 = k then (k, v) else p)
  else obj ++ [(k, v)]

/-- Embedding of reading `obj[k]`: `none` both for an absent key and for a
key stored with an `undefined` value, matching `=== undefined` checks. -/
def headerLookup (obj : HeaderObj) (k : String) : Option String :=
  match obj.find? (fun p => p.1 = k) with
  | some p => p.2
  | none => none

/-- Embedding of one step of the `reduce` over header lines (parser.js
lines 96-106): skip blank lines; otherwise split the trimmed line on
every colon, trim and quote strip each piece, and destructure the first
two pieces as property and value.  A line with no colon yields a single
piece, so the destructured value is `undefined`. -/
def headerStep (acc : HeaderObj) (line : String) : HeaderObj :=
  if jsTrim line = "" then acc
  else
    match (jsSplit (jsTrim line) ":").map (fun e => stripQuote (jsTrim e)) with
    | [] => acc
    | [p] => objInsertOpt acc p none
    | p :: v :: _ => objInsertOpt acc p (some v)

/-- Rejoin split pieces with the separator. -/
def joinWith (sep : String) : List String → String
  | [] => ""
  | [x] => x
  | x :: xs => x ++ sep ++ joinWith sep xs

/-- The text of `text` after the first occurrence of `marker`, when the
marker occurs. -/
def afterMarker (marker text : String) : Option String :=
  match jsSplit text marker with
  | [] => none
  | [_] => none
  | _ :: rest => some (joinWith marker rest)

/-- The text of `s` before its first `#`, when one occurs: the non greedy
`([\s\S]*?)#` tail of the section regexes. -/
def upToHash (s : String) : Option String :=
  match jsSplit s "#" with
  | [] => none
  | [_] => none
  | first :: _ :: _ => some first

/-- Embedding of `/#HEADER#([\s\S]*?)#/m.exec(fileStr)`: the text between
the first `#HEADER#` and the next `#`; `none` when the regex has no match
(in the source `exec` returns `null` and indexing it throws). -/
def headerSection (text : String) : Option String :=
  match afterMarker "#HEADER#" text with
  | none => none
  | some a => upToHash a

/-- Embedding of `/#DEFINITION#([\s\S]*?)#/m.exec(fileStr)`. -/
def definitionSection (text : String) : Option String :=
  match afterMarker "#DEFINITION#" text with
  | none => none
  | some a => upToHash a

/-- Embedding of `/#DATA#([\s\S]*)#END#/m.exec(fileStr)`: the greedy group
runs from the first `#DATA#` to the last `#END#` after it. -/
def dataSection (text : String) : Option String :=
  match afterMarker "#DATA#" text with
  | none => none
  | some a =>
    match jsSplit a "#END#" with
    | [] => none
    | [_] => none
    | pieces =>
      some (joinWith "#END#" pieces.dropLast)

/-- The error values the stages reject with, named by the taxonomy the
specification assigns to each rejection site of the source. -/
inductive ParseError : Type
  | malformedSection (name : String)
  | missingDelimiterDeclaration
  | dataPreconditionFailed
  | schemaMismatch (expected actual : Nat)
  deriving DecidableEq

instance {ε α : Type} [DecidableEq ε] [DecidableEq α] : DecidableEq (Except ε α) :=
  fun x y =>
    match x, y with
    | .error a, .error b =>
      if h : a = b then isTrue (by rw [h]) else
        isFalse (fun hh => h (by cases hh; rfl))
    | .ok a, .ok b =>
      if h : a = b then isTrue (by rw [h]) else
        isFalse (fun hh => h (by cases hh; rfl))
    | .error _, .ok _ => isFalse (fun hh => Except.noConfusion hh)
    | .ok _, .error _ => isFalse (fun hh => Except.noConfusion hh)

/-- Embedding of `getHeader` (parser.js lines 90-116): locate the HEADER
section, split it on newlines and fold the line step over them.  When the
section regex has no match the stage promise rejects. -/
def getHeader (fileStr : String) : Except ParseError HeaderObj :=
  match headerSection fileStr with
  | none => .error (.malformedSection "HEADER")
  | some hs => .ok ((jsSplit hs "\n").foldl headerStep [])

/-- Embedding of `getDefinitions` (parser.js lines 125-147).  The stage
first rejects when the header lacks `EOF` or `EOR` (the first settle of the
promise wins, so the later section work is unobservable); otherwise it
splits the DEFINITION section on the field separator, trims each name, and
drops a final element exactly when it equals the record separator. -/
def getDefinitions (fileStr : String) (header : HeaderObj) :
    Except ParseError (List String) :=
  match headerLookup header "EOF", headerLookup header "EOR" with
  | some eof, some eor =>
    match definitionSection fileStr with
    | none => .error (.malformedSection "DEFINITION")
    | some ds =>
      let definitions := (jsSplit ds eof).map jsTrim
      .ok (if definitions.getLast? = some eor then definitions.dropLast
           else definitions)
  | _, _ => .error .missingDelimiterDeclaration

/-- The record candidates of a DATA payload: split on the record
separator, trim each piece, keep the non empty ones (parser.js 170-177). -/
def validCandidates (ds eor : String) : List String :=
  ((jsSplit ds eor).map jsTrim).filter (fun s => s ≠ "")

/-- The value list of one record candidate: split on the field separator
and drop the final element unconditionally
(`elem.split(header.EOF).slice(0, -1)`, parser.js line 181). -/
def recordValues (eof elem : String) : List String :=
  (jsSplit elem eof).dropLast

/-- Embedding of `obj[k] = v` for defined string values. -/
def objInsert (obj : List (String × String)) (k v : String) :
    List (String × String) :=
  if obj.any (fun p => p.1 = k) then
    obj.map (fun p => if p.1 = k then (k, v) else p)
  else obj ++ [(k, v)]

/-- Embedding of the `reduce` that zips `definitions[i]` with the values
of one record (parser.js lines 186-190). -/
def buildRecord (defs vals : List String) : List (String × String) :=
  (defs.zip vals).foldl (fun acc kv => objInsert acc kv.1 kv.2) []

/-- Reading a field of a built record. -/
def recLookup (r : List (String × String)) (k : String) : Option String :=
  match r.find? (fun p => p.1 = k) with
  | some p => some p.2
  | none => none

/-- Embedding of the `forEach` over record candidates (parser.js lines
178-192): the promise rejects with the first arity mismatch (later
iterations and the final `resolve` are then ignored), and otherwise each
candidate contributes one record in order. -/
def buildRecords (eof : String) (defs : List String) :
    List String → Except ParseError (List (List (String × String)))
  | [] => .ok []
  | elem :: rest =>
    let vals := recordValues eof elem
    if vals.length ≠ defs.length then
      .error (.schemaMismatch defs.length vals.length)
    else
      match buildRecords eof defs rest with
      | .error e => .error e
      | .ok recs => .ok (buildRecord defs vals :: recs)

/-- Embedding of `getData` (parser.js lines 160-201).  The precondition
reject on a header without delimiters settles the promise first; in the
coordinator the `definitions` argument is always the resolved array of
`getDefinitions`, so it is typed as a plain list here and the
`definitions === undefined` reject site is unreachable. -/
def getData (fileStr : String) (header : HeaderObj) (defs : List String) :
    Except ParseError (List (List (String × String))) :=
  match headerLookup header "EOF", headerLookup header "EOR" with
  | some eof, some eor =>
    match dataSection fileStr with
    | none => .error (.malformedSection "DATA")
    | some ds => buildRecords eof defs (validCandidates ds eor)
  | _, _ => .error .dataPreconditionFailed

/-- The awaited stage sequence of `parseBlmFile` after the file text is in
memory (parser.js lines 225-228): each `await` rethrows a stage rejection,
so the first failing stage short circuits the rest. -/
def parsePipeline (fileStr : String) :
    Except ParseError (List (List (String × String))) :=
  match getHeader fileStr with
  | .error e => .error e
  | .ok header =>
    match getDefinitions fileStr header with
    | .error e => .error e
    | .ok defs => getData fileStr header defs

/-- One outcome handed to the user supplied callback. -/
inductive Delivery : Type
  | result (recs : List (List (String × String)))
  | readFailure
  | parseFailure (e : ParseError)
  deriving DecidableEq

/--
Embedding of the outcome delivery of `parseBlmFile` (parser.js lines
204-237) for an invocation that does pass a callback.  Read from the
source wiring:
* `validateFileHandle` resolves a boolean and never rejects; when it
  resolves `false`, `parsePromise` calls `reject` but the `async` body
  keeps running, so the file is still read and the stages still run.
* a failing read or stage rejects its own promise, whose `.catch` handler
  emits the `error` event, and the listener installed at module load calls
  the stored callback with the composed error — one delivery;
* when `parsePromise` resolves, its `.then` success handler calls the
  callback with the data — but only if `parsePromise` was not already
  rejected by the invalid handle branch, since a promise keeps its first
  settlement;
* when `parsePromise` rejects, its rejection handler calls
  `errEmitter.emit` passing the error object as the first argument, i.e.
  without the `"error"` event name, so no listener runs and nothing is
  delivered on that path.
`fileHandle` is the argument (`none` models a non string) and
`readResult` the outcome of `streamInData` on that path (`none` a read
error).
-/
def parseBlmFileDeliveries (fileHandle : Option String)
    (readResult : Option String) : List Delivery :=
  match readResult with
  | none => [.readFailure]
  | some fileStr =>
    match parsePipeline fileStr with
    | .error e => [.parseFailure e]
    | .ok recs =>
      if validateFileHandle fileHandle then [.result recs] else []

/-- The round trip input of the specification: header declaring `EOF:|`
and `EOR:;`, definition section `name|address|price;`, data section
`Alice|123 Rd|100000|;`. -/
def c1file : String :=
  "#HEADER#EOF:|\nEOR:;#DEFINITION#name|address|price;#DATA#Alice|123 Rd|100000|;#END#"

/-- A well formed document used to exercise the coordinator: one field
`a`, one record `x|;`. -/
def c2file : String :=
  "#HEADER#EOF:|\nEOR:;#DEFINITION#a|;#DATA#x|;#END#"

/-- Three field definitions but a record supplying only two values. -/
def c3file : String :=
  "#HEADER#EOF:|\nEOR:;#DEFINITION#a|b|c|;#DATA#x|y|;#END#"

/-- Duplicate field names in the definition section. -/
def c8file : String :=
  "#HEADER#EOF:|\nEOR:;#DEFINITION#a|a|;#DATA#x|y|;#END#"

/-- The record the code actually produces for `c1file`. -/
def c1rec : List (String × String) :=
  [("name", "Alice"), ("address", "123 Rd"), ("price;", "100000")]

end BlmParser

namespace BlmParser

/-! ## Helper lemmas -/

/-- A list containing an arity mismatch makes `buildRecords` reject with a
schema mismatch error. -/
theorem buildRecords_error_of_mismatch (eof : String) (defs : List String) :
    ∀ l : List String,
      (∃ e ∈ l, (recordValues eof e).length ≠ defs.length) →
      ∃ n m, buildRecords eof defs l = .error (.schemaMismatch n m) := by
  intro l
  induction l with
  | nil => intro h; simp at h
  | cons e rest ih =>
    intro h
    by_cases he : (recordValues eof e).length ≠ defs.length
    · exact ⟨defs.length, (recordValues eof e).length, by simp [buildRecords, he]⟩
    · have hrest : ∃ x ∈ rest, (recordValues eof x).length ≠ defs.length := by
        rcases h with ⟨x, hx, hxl⟩
        rcases List.mem_cons.mp hx with rfl | hx2
        · exact absurd hxl he
        · exact ⟨x, hx2, hxl⟩
      rcases ih hrest with ⟨n, m, hr⟩
      exact ⟨n, m, by simp [buildRecords, he, hr]⟩

/-- A successful `getDefinitions` guarantees both delimiter keys. -/
theorem getDefinitions_ok_lookup (fileStr : String) (header : HeaderObj)
    (defs : List String) (h : getDefinitions fileStr header = .ok defs) :
    ∃ eof eor, headerLookup header "EOF" = some eof ∧
      headerLookup header "EOR" = some eor := by
  cases hEof : headerLookup header "EOF" with
  | none => simp [getDefinitions, hEof] at h
  | some eof =>
    cases hEor : headerLookup header "EOR" with
    | none => simp [getDefinitions, hEof, hEor] at h
    | some eor => exact ⟨eof, eor, rfl, rfl⟩

/-- Assigning a key leaves the key list unchanged when the key is already
present and appends it otherwise. -/
theorem objInsert_keys (obj : List (String × String)) (k v : String) :
    (objInsert obj k v).map Prod.fst =
      if k ∈ obj.map Prod.fst then obj.map Prod.fst
      else obj.map Prod.fst ++ [k] := by
  by_cases hk : k ∈ obj.map Prod.fst
  · rw [if_pos hk]
    have ha : obj.any (fun p => p.1 = k) = true := by
      rcases List.mem_map.mp hk with ⟨p, hp, hpk⟩
      exact List.any_eq_true.mpr ⟨p, hp, by simp [hpk]⟩
    simp only [objInsert, ha, if_true, List.map_map]
    apply List.map_congr_left
    intro p hp
    by_cases hpk : p.1 = k <;> simp [hpk]
  · rw [if_neg hk]
    have ha : obj.any (fun p => p.1 = k) = false := by
      rw [List.any_eq_false]
      intro p hp
      simp only [decide_eq_true_eq]
      intro hpk
      exact hk (List.mem_map.mpr ⟨p, hp, hpk⟩)
    simp [objInsert, ha]

/-- Folding record assignments over an object: the final key set is the
union of the initial keys with the assigned keys, and key lists stay
duplicate free. -/
theorem foldl_objInsert_keys (pairs : List (String × String)) :
    ∀ obj : List (String × String),
      (((pairs.foldl (fun acc kv => objInsert acc kv.1 kv.2) obj).map
          Prod.fst).toFinset
        = (obj.map Prod.fst).toFinset ∪ (pairs.map Prod.fst).toFinset)
      ∧ ((obj.map Prod.fst).Nodup →
          ((pairs.foldl (fun acc kv => objInsert acc kv.1 kv.2) obj).map
            Prod.fst).Nodup) := by
  induction pairs with
  | nil => intro obj; simp
  | cons kv rest ih =>
    intro obj
    have hkeys := objInsert_keys obj kv.1 kv.2
    have hone : ((objInsert obj kv.1 kv.2).map Prod.fst).toFinset
        = insert kv.1 ((obj.map Prod.fst).toFinset) := by
      by_cases hk : kv.1 ∈ obj.map Prod.fst
      · rw [hkeys, if_pos hk]
        exact (Finset.insert_eq_self.mpr (List.mem_toFinset.mpr hk)).symm
      · rw [hkeys, if_neg hk]
        ext x
        simp [or_comm]
    constructor
    · have h1 := (ih (objInsert obj kv.1 kv.2)).1
      rw [List.foldl_cons, h1, hone]
      ext x
      simp
    · intro hnd
      apply (ih (objInsert obj kv.1 kv.2)).2
      by_cases hk : kv.1 ∈ obj.map Prod.fst
      · rw [hkeys, if_pos hk]; exact hnd
      · rw [hkeys, if_neg hk]
        simp [List.nodup_append, hnd, hk]

/-- The key list of a built record is duplicate free and its key set is
exactly the set of definition names. -/
theorem buildRecord_keys (defs vals : List String)
    (hlen : vals.length = defs.length) :
    ((buildRecord defs vals).map Prod.fst).toFinset = defs.toFinset ∧
    ((buildRecord defs vals).map Prod.fst).Nodup := by
  have hz : (defs.zip vals).map Prod.fst = defs :=
    List.map_fst_zip defs vals (le_of_eq hlen.symm)
  have h := foldl_objInsert_keys (defs.zip vals) []
  constructor
  · rw [buildRecord, h.1, hz]
    simp
  · exact h.2 (by simp)

/-- The number of keys of a built record is the number of distinct
definition names. -/
theorem buildRecord_key_count (defs vals : List String)
    (hlen : vals.length = defs.length) :
    ((buildRecord defs vals).map Prod.fst).length = defs.toFinset.card := by
  rcases buildRecord_keys defs vals hlen with ⟨hfs, hnd⟩
  rw [← hfs, List.card_toFinset, hnd.dedup]

/-- A successful `buildRecords` run yields one record per candidate, each
built from the value list of some candidate of matching arity. -/
theorem buildRecords_ok_spec (eof : String) (defs : List String) :
    ∀ (l : List String) (recs : List (List (String × String))),
      buildRecords eof defs l = .ok recs →
      recs.length = l.length ∧
      ∀ r ∈ recs, ∃ elem, (recordValues eof elem).length = defs.length ∧
        r = buildRecord defs (recordValues eof elem) := by
  intro l
  induction l with
  | nil =>
    intro recs h
    simp only [buildRecords] at h
    cases h
    simp
  | cons e rest ih =>
    intro recs h
    simp only [buildRecords] at h
    by_cases he : (recordValues eof e).length ≠ defs.length
    · rw [if_pos he] at h; cases h
    · rw [if_neg he] at h
      cases hr : buildRecords eof defs rest with
      | error err => rw [hr] at h; cases h
      | ok recs0 =>
        rw [hr] at h
        cases h
        rcases ih recs0 hr with ⟨hlen0, hall⟩
        constructor
        · simp [hlen0]
        · intro r hrmem
          rcases List.mem_cons.mp hrmem with rfl | hmem
          · exact ⟨e, not_not.mp he, rfl⟩
          · exact hall r hmem

end BlmParser

namespace BlmParser

/-! ## Claim theorems -/

/-- C1 (counterexample): on the round trip input the parse succeeds, but
the third field name of the single record is `price;`, not `price`: the
record does not bind `price` at all, so the result is not the record the
claim describes. -/
theorem c1_round_trip_counterexample :
    parsePipeline c1file = .ok [c1rec] ∧
    recLookup c1rec "price" = none ∧
    parsePipeline c1file ≠
      .ok [[("name", "Alice"), ("address", "123 Rd"), ("price", "100000")]] := by
  decide

/-- C1 (amended): for the input file whose header declares `EOF:|` and
`EOR:;`, whose definition section is `name|address|price;` and whose data
section is `Alice|123 Rd|100000|;`, the parse succeeds with exactly one
record mapping `name` to Alice, `address` to 123 Rd, and `price;` (with
the trailing record separator attached, because the definition splitter
only drops a final element that is exactly the record separator) to
100000. -/
theorem c1_round_trip_amended :
    parsePipeline c1file = .ok [c1rec] ∧
    recLookup c1rec "name" = some "Alice" ∧
    recLookup c1rec "address" = some "123 Rd" ∧
    recLookup c1rec "price;" = some "100000" := by
  decide

/-- C2 (code bug): an invocation with an invalid file handle whose path
nevertheless reads as a well formed document delivers zero outcomes: the
invalid handle rejection of the coordinator promise is routed to an
`emit` call that omits the `error` event name, so no listener fires and
the callback is never invoked, while the resolve of the already rejected
promise is ignored. -/
theorem c2_invalid_handle_zero_deliveries :
    validateFileHandle (some "file.txt") = false ∧
    parsePipeline c2file = .ok [[("a", "x")]] ∧
    parseBlmFileDeliveries (some "file.txt") (some c2file) = [] := by
  decide

/-- C3: whenever some record candidate of the DATA section has a value
count (after the unconditional drop of the final split element) different
from the definition count, `getData` rejects with a schema mismatch error
and returns no record list at all. -/
theorem c3_arity_mismatch_fails (fileStr : String) (header : HeaderObj)
    (defs : List String) (eof eor ds : String)
    (hEof : headerLookup header "EOF" = some eof)
    (hEor : headerLookup header "EOR" = some eor)
    (hds : dataSection fileStr = some ds)
    (hbad : ∃ elem ∈ validCandidates ds eor,
      (recordValues eof elem).length ≠ defs.length) :
    ∃ n m, getData fileStr header defs = .error (.schemaMismatch n m) := by
  have h := buildRecords_error_of_mismatch eof defs (validCandidates ds eor) hbad
  simpa [getData, hEof, hEor, hds] using h

/-- C3 witness: three definitions against a record supplying two values. -/
theorem c3_arity_mismatch_fails_witness :
    dataSection c3file = some "x|y|;" ∧
    (∃ elem ∈ validCandidates "x|y|;" ";",
      (recordValues "|" elem).length ≠ (["a", "b", "c"] : List String).length) ∧
    (∃ n m, getData c3file [("EOF", some "|"), ("EOR", some ";")] ["a", "b", "c"]
      = .error (.schemaMismatch n m)) :=
  ⟨by decide, by decide,
   c3_arity_mismatch_fails c3file [("EOF", some "|"), ("EOR", some ";")]
     ["a", "b", "c"] "|" ";" "x|y|;" (by decide) (by decide) (by decide) (by decide)⟩

/-- C4 (counterexample): an input whose DEFINITION and DATA marker pairs
are both missing, but whose header parses without delimiter keys, fails
with the missing delimiter error, not with a malformed section error
naming a missing section. -/
theorem c4_missing_marker_counterexample :
    definitionSection "#HEADER#a:b#" = none ∧
    dataSection "#HEADER#a:b#" = none ∧
    parsePipeline "#HEADER#a:b#" = .error .missingDelimiterDeclaration := by
  decide

/-- C4 (amended): an input missing a section marker pair never yields a
record result, and the failure is the malformed section error naming the
first missing section in stage order, provided the earlier stages hand
over their output (for a missing DEFINITION or DATA pair this needs the
header delimiters, since the missing delimiter rejection settles the
definition stage promise first). -/
theorem c4_missing_marker_amended (fileStr : String) :
    (headerSection fileStr = none →
      parsePipeline fileStr = .error (.malformedSection "HEADER")) ∧
    (∀ header eof eor, getHeader fileStr = .ok header →
      headerLookup header "EOF" = some eof →
      headerLookup header "EOR" = some eor →
      definitionSection fileStr = none →
      parsePipeline fileStr = .error (.malformedSection "DEFINITION")) ∧
    (∀ header defs, getHeader fileStr = .ok header →
      getDefinitions fileStr header = .ok defs →
      dataSection fileStr = none →
      parsePipeline fileStr = .error (.malformedSection "DATA")) := by
  refine ⟨?_, ?_, ?_⟩
  · intro h
    simp [parsePipeline, getHeader, h]
  · intro header eof eor hok hEof hEor hdef
    have hd : getDefinitions fileStr header = .error (.malformedSection "DEFINITION") := by
      simp [getDefinitions, hEof, hEor, hdef]
    simp [parsePipeline, hok, hd]
  · intro header defs hok hdefs hdata
    rcases getDefinitions_ok_lookup fileStr header defs hdefs with ⟨eof, eor, hEof, hEor⟩
    have hg : getData fileStr header defs = .error (.malformedSection "DATA") := by
      simp [getData, hEof, hEor, hdata]
    simp [parsePipeline, hok, hdefs, hg]

/-- C4 witness: one concrete input per missing marker pair. -/
theorem c4_missing_marker_amended_witness :
    parsePipeline "no markers here" = .error (.malformedSection "HEADER") ∧
    parsePipeline "#HEADER#EOF:|\nEOR:;#DATA#x#END#"
      = .error (.malformedSection "DEFINITION") ∧
    parsePipeline "#HEADER#EOF:|\nEOR:;#DEFINITION#a|;#DATA#x"
      = .error (.malformedSection "DATA") :=
  ⟨(c4_missing_marker_amended "no markers here").1 (by decide),
   (c4_missing_marker_amended "#HEADER#EOF:|\nEOR:;#DATA#x#END#").2.1
     [("EOF", some "|"), ("EOR", some ";")] "|" ";"
     (by decide) (by decide) (by decide) (by decide),
   (c4_missing_marker_amended "#HEADER#EOF:|\nEOR:;#DEFINITION#a|;#DATA#x").2.2
     [("EOF", some "|"), ("EOR", some ";")] ["a"]
     (by decide) (by decide) (by decide)⟩

/-- C5: when the parsed header lacks the `EOF` or the `EOR` key, the
definition stage rejects with the missing delimiter error and the whole
parse fails with that error — with no assumption on the DEFINITION or
DATA sections, so the failure precedes any definition or data extraction
and the stage ordering is observable. -/
theorem c5_missing_delimiter_short_circuits (fileStr : String)
    (header : HeaderObj) (hok : getHeader fileStr = .ok header)
    (h : headerLookup header "EOF" = none ∨ headerLookup header "EOR" = none) :
    getDefinitions fileStr header = .error .missingDelimiterDeclaration ∧
    parsePipeline fileStr = .error .missingDelimiterDeclaration := by
  have hdef : getDefinitions fileStr header = .error .missingDelimiterDeclaration := by
    rcases h with h | h
    · simp [getDefinitions, h]
    · cases hEof : headerLookup header "EOF" <;> simp [getDefinitions, h, hEof]
  exact ⟨hdef, by simp [parsePipeline, hok, hdef]⟩

/-- C5 witness: a header declaring only `EOR`, over a file whose later
sections are all present and well formed. -/
theorem c5_missing_delimiter_short_circuits_witness :
    getHeader "#HEADER#EOR:;#DEFINITION#a|;#DATA#x|;#END#" = .ok [("EOR", some ";")] ∧
    parsePipeline "#HEADER#EOR:;#DEFINITION#a|;#DATA#x|;#END#"
      = .error .missingDelimiterDeclaration :=
  ⟨by decide,
   (c5_missing_delimiter_short_circuits "#HEADER#EOR:;#DEFINITION#a|;#DATA#x|;#END#"
     [("EOR", some ";")] (by decide) (Or.inl (by decide))).2⟩

/-- C6: the path validator returns a boolean and never an error (it is a
total boolean function of its argument); it accepts `a.blm` and `a.BLM`
and rejects `.blm`, `a.txt`, the empty string and every non string
input. -/
theorem c6_validate_file_handle_cases :
    validateFileHandle (some "a.blm") = true ∧
    validateFileHandle (some "a.BLM") = true ∧
    validateFileHandle (some ".blm") = false ∧
    validateFileHandle (some "a.txt") = false ∧
    validateFileHandle (some "a.txt") ≠ true ∧
    validateFileHandle (some "") = false ∧
    validateFileHandle none = false := by
  decide

/-- C7 (counterexample): a header whose only line has no colon is parsed
without any error: extraction succeeds and binds the line as a property
with an undefined value, instead of failing with a malformed header line
error. -/
theorem c7_no_colon_counterexample :
    getHeader "#HEADER#hello#" = .ok [("hello", none)] := by
  decide

/-- C7 (amended): header extraction never fails on line content — whenever
the HEADER markers are present it succeeds — and a non blank line whose
trimmed text splits on colons into a single piece (that is, a line with no
colon) is stored as a property with an undefined value. -/
theorem c7_no_colon_amended (fileStr hs : String)
    (hsec : headerSection fileStr = some hs) :
    (∃ h, getHeader fileStr = .ok h) ∧
    ∀ (acc : HeaderObj) (line x : String), jsTrim line ≠ "" →
      jsSplit (jsTrim line) ":" = [x] →
      headerStep acc line = objInsertOpt acc (stripQuote (jsTrim x)) none := by
  constructor
  · refine ⟨(jsSplit hs "\n").foldl headerStep [], ?_⟩
    simp [getHeader, hsec]
  · intro acc line x hne hx
    simp [headerStep, hne, hx]

/-- C7 witness: the single line `hello` of the concrete file. -/
theorem c7_no_colon_amended_witness :
    headerSection "#HEADER#hello#" = some "hello" ∧
    (∃ h, getHeader "#HEADER#hello#" = .ok h) ∧
    headerStep [] "hello" = objInsertOpt [] (stripQuote (jsTrim "hello")) none :=
  ⟨by decide,
   (c7_no_colon_amended "#HEADER#hello#" "hello" (by decide)).1,
   (c7_no_colon_amended "#HEADER#hello#" "hello" (by decide)).2 [] "hello" "hello"
     (by decide) (by decide)⟩

/-- C8 (counterexample): with the duplicate definition list `a, a` the
parse succeeds and the single record has one key, not two: the second
assignment to `a` overwrites the first, so the key set is smaller than
the definition list. -/
theorem c8_duplicate_defs_counterexample :
    getHeader c8file = .ok [("EOF", some "|"), ("EOR", some ";")] ∧
    getDefinitions c8file [("EOF", some "|"), ("EOR", some ";")] = .ok ["a", "a"] ∧
    parsePipeline c8file = .ok [[("a", "y")]] ∧
    ([("a", "y")].map Prod.fst).length = 1 := by
  decide

/-- C8 (amended): for every input that parses successfully, the number of
records equals the number of non empty record candidates of the DATA
section, and the key list of every record is duplicate free with exactly
one key per distinct definition name — equal to the definition count only
when the definition names are distinct. -/
theorem c8_shape_amended (fileStr : String) (header : HeaderObj)
    (defs : List String) (recs : List (List (String × String)))
    (eof eor ds : String)
    (hh : getHeader fileStr = .ok header)
    (hd : getDefinitions fileStr header = .ok defs)
    (hEof : headerLookup header "EOF" = some eof)
    (hEor : headerLookup header "EOR" = some eor)
    (hds : dataSection fileStr = some ds)
    (hpipe : parsePipeline fileStr = .ok recs) :
    recs.length = (validCandidates ds eor).length ∧
    ∀ r ∈ recs, (r.map Prod.fst).length = defs.toFinset.card := by
  have hok : getData fileStr header defs = .ok recs := by
    simpa [parsePipeline, hh, hd] using hpipe
  have hbr : buildRecords eof defs (validCandidates ds eor) = .ok recs := by
    simpa [getData, hEof, hEor, hds] using hok
  rcases buildRecords_ok_spec eof defs (validCandidates ds eor) recs hbr with ⟨h1, h2⟩
  refine ⟨h1, ?_⟩
  intro r hr
  rcases h2 r hr with ⟨elem, hlen, rfl⟩
  exact buildRecord_key_count defs (recordValues eof elem) hlen

/-- C8 witness: the round trip file, whose three definition names are
distinct. -/
theorem c8_shape_amended_witness :
    parsePipeline c1file = .ok [c1rec] ∧
    ([c1rec].length = (validCandidates "Alice|123 Rd|100000|;" ";").length) ∧
    ((c1rec.map Prod.fst).length
      = (["name", "address", "price;"] : List String).toFinset.card) :=
  ⟨by decide,
   (c8_shape_amended c1file [("EOF", some "|"), ("EOR", some ";")]
     ["name", "address", "price;"] [c1rec] "|" ";" "Alice|123 Rd|100000|;"
     (by decide) (by decide) (by decide) (by decide) (by decide) (by decide)).1,
   (c8_shape_amended c1file [("EOF", some "|"), ("EOR", some ";")]
     ["name", "address", "price;"] [c1rec] "|" ";" "Alice|123 Rd|100000|;"
     (by decide) (by decide) (by decide) (by decide) (by decide) (by decide)).2
     c1rec (by decide)⟩

/-- C9: the value list of every record candidate is the field separator
split with its final element dropped unconditionally; whatever that final
piece `v` is — in particular the last genuine value of a record whose raw
text does not end with the separator — the record is built from the
remaining pieces alone and the arity check compares that shortened list
with the definition count, with no error reported about `v`. -/
theorem c9_trailing_split_dropped (eof elem v : String) (defs vs : List String)
    (hsplit : jsSplit elem eof = vs ++ [v])
    (hlen : vs.length = defs.length) :
    recordValues eof elem = vs ∧
    buildRecords eof defs [elem] = .ok [buildRecord defs vs] := by
  have hv : recordValues eof elem = vs := by
    simp [recordValues, hsplit]
  refine ⟨hv, ?_⟩
  simp [buildRecords, hv, hlen]

/-- C9 witness: the candidate `a|b` does not end with the separator, so
its value `b` is silently dropped and the one field record is built from
`a` alone. -/
theorem c9_trailing_split_dropped_witness :
    jsSplit "a|b" "|" = ["a"] ++ ["b"] ∧
    recordValues "|" "a|b" = ["a"] ∧
    buildRecords "|" ["f"] ["a|b"] = .ok [buildRecord ["f"] ["a"]] :=
  ⟨by decide,
   (c9_trailing_split_dropped "|" "a|b" "b" ["f"] ["a"] (by decide) (by decide)).1,
   (c9_trailing_split_dropped "|" "a|b" "b" ["f"] ["a"] (by decide) (by decide)).2⟩

/-- C10: for a non blank header line whose trimmed text splits on colons
into three or more pieces (that is, a line with more than one colon), the
stored property value is the trimmed and quote stripped second piece — the
text between the first and the second colon — and every later piece is
silently discarded. -/
theorem c10_only_second_piece_kept (acc : HeaderObj) (line a b : String)
    (rest : List String) (hne : jsTrim line ≠ "")
    (hsplit : jsSplit (jsTrim line) ":" = a :: b :: rest)
    (_hrest : rest ≠ []) :
    headerStep acc line
      = objInsertOpt acc (stripQuote (jsTrim a)) (some (stripQuote (jsTrim b))) := by
  simp [headerStep, hne, hsplit]

/-- C10 witness: the line `k:"v":junk` keeps only the unquoted `v`. -/
theorem c10_only_second_piece_kept_witness :
    jsSplit (jsTrim "k:\"v\":junk") ":" = "k" :: "\"v\"" :: ["junk"] ∧
    headerStep [] "k:\"v\":junk" = [("k", some "v")] :=
  ⟨by decide,
   (c10_only_second_piece_kept [] "k:\"v\":junk" "k" "\"v\"" ["junk"]
     (by decide) (by decide) (by decide)).trans (by decide)⟩

end BlmParser
